import Mathlib

/-!
Verification of the compress-mcp-server core against its specification.

The development shallowly embeds the TypeScript sources:
* `src/utils/compression-utils.ts` (CompressionUtils)
* `src/handlers/gzip-handler.ts` (GzipHandler)
* `src/registry/format-registry.ts` (FormatRegistry)
* `src/tools/unified-compression.ts` (createUnifiedCompressionTool.execute)
* `src/tools/zip.ts` (MemoryWritable, createUnzipTool ratio)

File contents are byte lists, the filesystem is an association list from
path strings to entries, and the external zlib codec is a parameter
(`GzipCodec`), since the byte-level algorithms are out of scope for the
spec.  Promise rejections in Node are modelled with `Except`, matched on
at every call site that sits inside a `try` block whose `catch` returns
an error result.
-/

namespace CompressServer

/-- JSON-like values carried in the `data` payload of a success result.
Percentage strings such as `toFixed(2) + "%"` are modelled by their exact
rational value. -/
inductive JsonVal where
  | nat (v : Nat)
  | rat (v : ℚ)
  | str (v : String)
  | bool (v : Bool)
  | bytes (v : List Nat)
  deriving DecidableEq, Repr

/-- The MCP result shape from `compression-utils.ts` (`MCPResult`):
`isError`, an optional `content` (text plus extra data fields) and an
optional `error` (message plus optional details). -/
structure MCPResult where
  isError : Bool
  content : Option (String × List (String × JsonVal))
  error : Option (String × Option String)
  deriving DecidableEq, Repr

/-- Model of `CompressionUtils.createSuccessResult`. -/
def createSuccessResult (message : String) (data : List (String × JsonVal)) : MCPResult :=
  { isError := false, content := some (message, data), error := none }

/-- Model of `CompressionUtils.createErrorResult`. -/
def createErrorResult (message : String) (details : Option String) : MCPResult :=
  { isError := true, content := none, error := some (message, details) }

/-- Look up a field of the success data of a result. -/
def dataLookup (r : MCPResult) (key : String) : Option JsonVal :=
  r.content.bind (fun c => List.lookup key c.2)

/-- The `ProgressInfo` interface from `compression-utils.ts`. -/
structure ProgressInfo where
  bytesProcessed : Nat
  totalBytes : Option Nat
  percentComplete : Option Nat
  stage : String
  detail : Option String
  deriving DecidableEq, Repr

/-- Natural-number `Math.round (num / den)`: round half up,
`floor (num / den + 1 / 2) = (2 * num + den) / (2 * den)` in integer
division. -/
def jsRoundDiv (num den : Nat) : Nat := (2 * num + den) / (2 * den)

/-- Model of `CompressionUtils.formatProgress`: sets `totalBytes` and
`percentComplete` only when the passed `totalBytes` is truthy
(present and nonzero); the percentage is
`Math.min(Math.round(bytesProcessed / totalBytes * 100), 100)`. -/
def formatProgress (bytesProcessed : Nat) (totalBytes : Option Nat)
    (stage : Option String) (detail : Option String) : ProgressInfo :=
  let base : ProgressInfo :=
    { bytesProcessed := bytesProcessed
      totalBytes := none
      percentComplete := none
      stage := stage.getD "processing"
      detail := detail }
  match totalBytes with
  | some t =>
      if t ≠ 0 then
        { base with
            totalBytes := some t
            percentComplete := some (min (jsRoundDiv (bytesProcessed * 100) t) 100) }
      else base
  | none => base

/-! ## Strings and paths

ASCII models of the JavaScript string operations used by the sources,
implemented over `List Char` so that everything reduces. -/

/-- ASCII `String.prototype.toLowerCase`. -/
def charLower (c : Char) : Char :=
  if 65 ≤ c.toNat ∧ c.toNat ≤ 90 then Char.ofNat (c.toNat + 32) else c

/-- ASCII `toLowerCase` on strings. -/
def jsToLower (s : String) : String := String.mk (s.data.map charLower)

/-- Whether `l` ends with `t` (list form of `String.prototype.endsWith`). -/
def listEndsWith (t l : List Char) : Bool :=
  decide (t.length ≤ l.length) && (l.drop (l.length - t.length) == t)

/-- Model of `String.prototype.endsWith`. -/
def strEndsWith (s t : String) : Bool := listEndsWith t.data s.data

/-- Model of `String.prototype.startsWith`. -/
def strStartsWith (s t : String) : Bool := s.data.take t.data.length == t.data

/-- Drop the last `n` characters of a string. -/
def strDropRight (s : String) (n : Nat) : String :=
  String.mk (s.data.take (s.data.length - n))

/-- Whether `sub` occurs as a contiguous substring of the list
(list form of `String.prototype.includes`). -/
def listContainsSub (sub : List Char) : List Char → Bool
  | [] => sub.isEmpty
  | x :: xs => (((x :: xs).take sub.length) == sub) || listContainsSub sub xs

/-- Model of `String.prototype.includes`. -/
def strContainsSub (s sub : String) : Bool := listContainsSub sub.data s.data

/-- Split a character list at a separator character. -/
def splitOnCharList (c : Char) : List Char → List (List Char)
  | [] => [[]]
  | x :: xs =>
      let rest := splitOnCharList c xs
      if x = c then [] :: rest
      else
        match rest with
        | [] => [[x]]
        | r :: rs => (x :: r) :: rs

/-- Split a path into its `/`-separated components. -/
def splitPath (p : String) : List String :=
  (splitOnCharList '/' p.data).map String.mk

/-- Join strings with a separator. -/
def joinWith (sep : String) : List String → String
  | [] => ""
  | [x] => x
  | x :: y :: xs => x ++ sep ++ joinWith sep (y :: xs)

/-- One step of the posix `path.normalize` segment resolution. -/
def normStep (isAbs : Bool) (stack : List String) (seg : String) : List String :=
  if seg = "" ∨ seg = "." then stack
  else if seg = ".." then
    match stack with
    | [] => if isAbs then [] else [".."]
    | top :: rest => if top = ".." then ".." :: top :: rest else rest
  else seg :: stack

/-- Posix `path.normalize` (trailing-slash preservation omitted; the
sources never pass paths with trailing slashes to it). -/
def pathNormalize (p : String) : String :=
  let isAbs := strStartsWith p "/"
  let segs := (splitPath p).foldl (normStep isAbs) []
  let body := joinWith "/" segs.reverse
  if isAbs then (if body = "" then "/" else "/" ++ body)
  else (if body = "" then "." else body)

/-- Posix `path.dirname`. -/
def dirname (p : String) : String :=
  let comps := splitPath p
  if comps.length ≤ 1 then "."
  else
    let pre := comps.dropLast
    if pre = [""] then "/" else joinWith "/" pre

/-- Posix `path.basename` (no trailing slashes in play). -/
def basename (p : String) : String := (splitPath p).getLastD ""

/-- Posix `path.join` of two segments. -/
def pathJoin (a b : String) : String :=
  let joined := if a = "" then b else if b = "" then a else a ++ "/" ++ b
  if joined = "" then "." else pathNormalize joined

/-! ## Filesystem model -/

/-- A filesystem entry: a regular file with its byte content, or a
directory. -/
inductive FSEntry where
  | file (content : List Nat)
  | dir
  deriving DecidableEq, Repr

/-- The filesystem: an association list from paths to entries. -/
abbrev FileSystem := List (String × FSEntry)

/-- Insert or overwrite the entry at a path. -/
def setEntry (fs : FileSystem) (p : String) (e : FSEntry) : FileSystem :=
  match fs with
  | [] => [(p, e)]
  | (q, f) :: rest => if q = p then (p, e) :: rest else (q, f) :: setEntry rest p e

/-- Model of `CompressionUtils.fileExists` (an `fs.access` probe). -/
def fileExists (fs : FileSystem) (p : String) : Bool :=
  (List.lookup p fs).isSome

/-- Model of `CompressionUtils.isFile`. -/
def isFile (fs : FileSystem) (p : String) : Bool :=
  match List.lookup p fs with
  | some (.file _) => true
  | _ => false

/-- Model of `CompressionUtils.isDirectory`. -/
def isDirectory (fs : FileSystem) (p : String) : Bool :=
  match List.lookup p fs with
  | some .dir => true
  | _ => false

/-- Content of a file (empty for directories and missing paths; the
sources only read it after an `isFile` check). -/
def fileContent (fs : FileSystem) (p : String) : List Nat :=
  match List.lookup p fs with
  | some (.file c) => c
  | _ => []

/-- Model of `CompressionUtils.getFileSize`: `stat` size, rejecting when the path
is missing. -/
def getFileSize (fs : FileSystem) (p : String) : Except String Nat :=
  match List.lookup p fs with
  | some (.file c) => .ok c.length
  | some .dir => .ok 0
  | none => .error ("Failed to get file size: no such file " ++ p)

/-- Model of `CompressionUtils.ensureDir`: ok if the path is a directory, create
it if absent; when the path exists as a file, the internal throw is
caught and the retried `mkdir` rejects with `EEXIST`. -/
def ensureDir (fs : FileSystem) (p : String) : Except String FileSystem :=
  match List.lookup p fs with
  | some .dir => .ok fs
  | some (.file _) => .error ("EEXIST: file already exists, mkdir " ++ p)
  | none => .ok (setEntry fs p .dir)

/-! ## CompressionUtils: paths and ratios -/

/-- Model of `CompressionUtils.normalizePath`: normalize, then reject any path
whose normalized form contains the substring `..`. -/
def normalizePath (filePath : String) : Except String String :=
  let normalized := pathNormalize filePath
  if strContainsSub normalized ".." then
    .error "Path traversal detected. Path cannot contain \"..\""
  else .ok normalized

/-- Model of `CompressionUtils.resolveOutputPath`; `outputDir`, `outputFileName`
and `defaultExt` undergo JavaScript truthiness checks, so the empty
string behaves like an absent argument. -/
def resolveOutputPath (sourcePath : String)
    (outputDir outputFileName defaultExt : Option String) : String :=
  let sourceDir := dirname sourcePath
  let targetDir :=
    match outputDir with
    | some d => if d = "" then sourceDir else d
    | none => sourceDir
  let sourceBaseName := basename sourcePath
  let autoName :=
    match defaultExt with
    | some e => if e = "" then sourceBaseName else sourceBaseName ++ e
    | none => sourceBaseName
  let name :=
    match outputFileName with
    | some n => if n = "" then autoName else n
    | none => autoName
  pathJoin targetDir name

/-- Model of `CompressionUtils.removeExtension` with an explicit extension. -/
def removeExtension (filePath : String) (ext : String) : String :=
  if ext ≠ "" ∧ strEndsWith filePath ext then strDropRight filePath ext.length
  else filePath

/-- Numeric core of `CompressionUtils.formatCompressionRatio`:
`compressedSize / originalSize * 100` (the source then renders it with
`toFixed(2)` and a percade sign). -/
def ratioPct (originalSize compressedSize : Nat) : ℚ :=
  (compressedSize : ℚ) / (originalSize : ℚ) * 100

/-- Numeric core of the standalone unzip tool extraction percentage
(`src/tools/zip.ts` line 366): `(extracted / compressed - 1) * 100`. -/
def unzipExtractionPct (compressedSize extractedSize : Nat) : ℚ :=
  ((extractedSize : ℚ) / (compressedSize : ℚ) - 1) * 100

/-- JavaScript `x || default` for optional numbers (`0` is falsy). -/
def optOr (o : Option Nat) (d : Nat) : Nat :=
  match o with
  | some n => if n = 0 then d else n
  | none => d

/-! ## The external zlib codec

The byte-level gzip algorithms live in an external library; they enter
the model as parameters.  `gunzipChunks` yields the decompressed payload
as the sequence of `data` chunks the gunzip stream emits (their
concatenation is the payload), or rejects on corrupt input. -/

structure GzipCodec where
  gz : Nat → List Nat → List Nat
  gunzipChunks : List Nat → Except String (List (List Nat))

/-- A codec for concrete runs: compression is the identity and
decompression emits the whole input in one chunk. -/
def idCodec : GzipCodec :=
  { gz := fun _ c => c, gunzipChunks := fun c => .ok [c] }

/-! ## GzipHandler (`src/handlers/gzip-handler.ts`) -/

namespace GzipHandler

/-- Model of `GzipHandler.getSupportedExtensions`. -/
def getSupportedExtensions : List String := [".gz"]

/-- Model of `GzipHandler.isFormatValid`: case-insensitive `.gz` suffix. -/
def isFormatValid (filePath : String) : Bool :=
  strEndsWith (jsToLower filePath) ".gz"

/-- Model of `GzipHandler.compress`.  Every rejection inside the `try` block is
matched where the source call would throw and turned into the error
result the surrounding `catch` produces. -/
def compress (codec : GzipCodec) (fs : FileSystem)
    (sourcePath targetPath : String) (compressionLevel : Nat) :
    FileSystem × MCPResult :=
  if !(fileExists fs sourcePath) then
    (fs, createErrorResult ("Source file does not exist: " ++ sourcePath) none)
  else if !(isFile fs sourcePath) then
    (fs, createErrorResult ("Source path is not a file: " ++ sourcePath)
      (some "Please use a regular file for gzip compression."))
  else
    match getFileSize fs sourcePath with
    | .error e => (fs, createErrorResult ("Error compressing file: " ++ e) none)
    | .ok sourceSize =>
      match ensureDir fs (dirname targetPath) with
      | .error e => (fs, createErrorResult ("Error compressing file: " ++ e) none)
      | .ok fs1 =>
        let level := if compressionLevel = 0 then 6 else compressionLevel
        let compressed := codec.gz level (fileContent fs sourcePath)
        let fs2 := setEntry fs1 targetPath (.file compressed)
        let compressedSize := compressed.length
        (fs2, createSuccessResult ("Successfully compressed file to " ++ targetPath)
          [("originalSize", .nat sourceSize),
           ("compressedSize", .nat compressedSize),
           ("compressionRatio", .rat (ratioPct sourceSize compressedSize)),
           ("sourcePath", .str sourcePath),
           ("targetPath", .str targetPath)])

/-- Model of `GzipHandler.decompress`.  On a gunzip failure the write stream has
already created (truncated) the target file before the pipeline
rejects. -/
def decompress (codec : GzipCodec) (fs : FileSystem)
    (sourcePath targetDir : String) :
    FileSystem × MCPResult :=
  if !(fileExists fs sourcePath) then
    (fs, createErrorResult ("Source file does not exist: " ++ sourcePath) none)
  else if !(isFile fs sourcePath) then
    (fs, createErrorResult ("Source path is not a file: " ++ sourcePath) none)
  else
    match ensureDir fs targetDir with
    | .error e => (fs, createErrorResult ("Error decompressing file: " ++ e) none)
    | .ok fs1 =>
      let sourceBaseName := basename sourcePath
      let targetFileName :=
        if strEndsWith sourceBaseName ".gz" then strDropRight sourceBaseName 3
        else sourceBaseName
      let targetPath := pathJoin targetDir targetFileName
      match getFileSize fs sourcePath with
      | .error e => (fs1, createErrorResult ("Error decompressing file: " ++ e) none)
      | .ok sourceSize =>
        match codec.gunzipChunks (fileContent fs sourcePath) with
        | .error e =>
            (setEntry fs1 targetPath (.file []),
             createErrorResult ("Error decompressing file: " ++ e) none)
        | .ok chunks =>
            let out := chunks.flatten
            let fs2 := setEntry fs1 targetPath (.file out)
            let decompressedSize := out.length
            (fs2, createSuccessResult ("Successfully decompressed file to " ++ targetPath)
              [("compressedSize", .nat sourceSize),
               ("decompressedSize", .nat decompressedSize),
               ("expansionRatio", .rat (ratioPct sourceSize decompressedSize)),
               ("sourcePath", .str sourcePath),
               ("targetPath", .str targetPath)])

end GzipHandler

/-! ## The preview accumulation loop of `GzipHandler.listContents`

The data handler of the gunzip stream pushes each chunk, adds its length,
and destroys both streams once `totalLength >= previewLength`; after the
destroy no further chunks arrive (the resulting premature-close
rejection is ignored by the source). -/

structure ListAccum where
  chunksAcc : List (List Nat)
  totalLength : Nat
  destroyed : Bool
  deriving DecidableEq, Repr

/-- One `data` event of the preview loop. -/
def listStep (previewLength : Nat) (st : ListAccum) (chunk : List Nat) : ListAccum :=
  if st.destroyed then st
  else
    let total := st.totalLength + chunk.length
    { chunksAcc := st.chunksAcc ++ [chunk]
      totalLength := total
      destroyed := decide (previewLength ≤ total) }

/-- Run the preview loop over the chunk sequence. -/
def accumGo (previewLength : Nat) (st : ListAccum) : List (List Nat) → ListAccum
  | [] => st
  | c :: cs => accumGo previewLength (listStep previewLength st c) cs

/-- The accumulated state after all emitted chunks. -/
def accumulatePreview (previewLength : Nat) (chunks : List (List Nat)) : ListAccum :=
  accumGo previewLength { chunksAcc := [], totalLength := 0, destroyed := false } chunks

namespace GzipHandler

/-- Model of `GzipHandler.listContents`.  The preview content is the byte prefix
`buffer.toString(utf8, 0, min previewLength totalLength)` of the
accumulated buffer, modelled as the byte list itself. -/
def listContents (codec : GzipCodec) (fs : FileSystem)
    (sourcePath : String) (previewLength0 : Nat) :
    FileSystem × MCPResult :=
  if !(fileExists fs sourcePath) then
    (fs, createErrorResult ("Source file does not exist: " ++ sourcePath) none)
  else if !(isFile fs sourcePath) then
    (fs, createErrorResult ("Source path is not a file: " ++ sourcePath) none)
  else if !(isFormatValid sourcePath) then
    (fs, createErrorResult ("File is not a valid gzip file: " ++ sourcePath)
      (some "File must have .gz extension"))
  else
    match getFileSize fs sourcePath with
    | .error e => (fs, createErrorResult ("Error reading compressed file: " ++ e) none)
    | .ok sourceSize =>
      let previewLength := if previewLength0 = 0 then 1000 else previewLength0
      match codec.gunzipChunks (fileContent fs sourcePath) with
      | .error e => (fs, createErrorResult ("Error reading compressed file: " ++ e) none)
      | .ok allChunks =>
        let st := accumulatePreview previewLength allChunks
        let buffer := st.chunksAcc.flatten
        let preview := buffer.take (min previewLength st.totalLength)
        let originalFileName := removeExtension (basename sourcePath) ".gz"
        (fs, createSuccessResult ("Content preview of " ++ sourcePath)
          [("fileName", .str originalFileName),
           ("compressedSize", .nat sourceSize),
           ("previewSize", .nat st.totalLength),
           ("preview", .bytes preview),
           ("isTruncated", .bool (decide (previewLength < st.totalLength)))])

end GzipHandler

/-! ## Progress emission of the gzip streaming operations

`GzipHandler.compress` and `GzipHandler.decompress` first invoke the
callback at `0` bytes with the operation stage, then once per source
`data` chunk with the cumulative byte count; no other events are
emitted — in particular no final `stage = "complete"` event. -/

/-- Running totals `[0, c1, c1+c2, ...]` of the chunk sizes, starting at
`start`. -/
def runningTotals (start : Nat) : List Nat → List Nat
  | [] => [start]
  | c :: cs => start :: runningTotals (start + c) cs

/-- The progress trace a gzip streaming operation emits for a given
sequence of source chunk sizes: `stageName` is `"compressing"` for
`compress` and `"decompressing"` for `decompress`. -/
def gzipStreamProgressTrace (stageName : String) (chunks : List Nat)
    (totalSize : Nat) : List ProgressInfo :=
  (runningTotals 0 chunks).map
    (fun c => formatProgress c (some totalSize) (some stageName) none)

/-! ## MemoryWritable (`src/tools/zip.ts`) -/

/-- The bounded in-memory sink backing the standalone
`list-zip-contents` tool. -/
structure MemoryWritable where
  maxLength : Nat
  chunks : List (List Nat)
  totalLength : Nat
  deriving DecidableEq, Repr

/-- Model of `new MemoryWritable(maxLength)`. -/
def MemoryWritable.mk0 (maxLength : Nat) : MemoryWritable :=
  { maxLength := maxLength, chunks := [], totalLength := 0 }

/-- Model of `MemoryWritable._write`: while below the cap, store the chunk
truncated to the remaining room. -/
def MemoryWritable.write (m : MemoryWritable) (chunk : List Nat) : MemoryWritable :=
  if m.totalLength < m.maxLength then
    let remainingLength := m.maxLength - m.totalLength
    let c := if chunk.length > remainingLength then chunk.take remainingLength else chunk
    { m with chunks := m.chunks ++ [c], totalLength := m.totalLength + c.length }
  else m

/-- Model of `MemoryWritable.getContent`: `Buffer.concat(chunks, totalLength)`. -/
def MemoryWritable.getContent (m : MemoryWritable) : List Nat := m.chunks.flatten

/-- Feed a whole sequence of chunks to the sink. -/
def MemoryWritable.writeAll (m : MemoryWritable) (cs : List (List Nat)) : MemoryWritable :=
  cs.foldl MemoryWritable.write m

/-! ## FormatRegistry (`src/registry/format-registry.ts`) -/

/-- Insert or overwrite an association-list key (JavaScript `Map.set`,
keeping insertion order). -/
def setAssoc {α : Type} (l : List (String × α)) (k : String) (v : α) :
    List (String × α) :=
  match l with
  | [] => [(k, v)]
  | (k1, v1) :: rest => if k1 = k then (k, v) :: rest else (k1, v1) :: setAssoc rest k v

/-- The format registry: the format-name map and the extension map. -/
structure FormatRegistry (α : Type) where
  handlers : List (String × α)
  extensionMap : List (String × α)

/-- Model of `FormatRegistry.register`: lowercase the format name, then insert
every supported extension (lowercased) into the extension map.
`getExts` stands for the virtual `handler.getSupportedExtensions()`. -/
def FormatRegistry.register {α : Type} (getExts : α → List String)
    (r : FormatRegistry α) (formatName : String) (handler : α) : FormatRegistry α :=
  { handlers := setAssoc r.handlers (jsToLower formatName) handler
    extensionMap :=
      (getExts handler).foldl (fun m ext => setAssoc m (jsToLower ext) handler)
        r.extensionMap }

/-- Model of `FormatRegistry.getHandlerByFormat`: case-insensitive lookup. -/
def FormatRegistry.getHandlerByFormat {α : Type} (r : FormatRegistry α)
    (formatName : String) : Option α :=
  List.lookup (jsToLower formatName) r.handlers

/-- Model of `FormatRegistry.getAllFormats`. -/
def FormatRegistry.getAllFormats {α : Type} (r : FormatRegistry α) : List String :=
  r.handlers.map Prod.fst

/-! ## The unified dispatcher (`src/tools/unified-compression.ts`) -/

/-- The `operation` enum of the unified tool (zod guarantees one of the
three values). -/
inductive Operation where
  | compress | decompress | list
  deriving DecidableEq, Repr

/-- The request envelope after zod validation. -/
structure UnifiedParams where
  operation : Operation
  format : String
  sourcePath : String
  outputDirectory : Option String
  outputFileName : Option String
  compressionLevel : Option Nat
  stripComponents : Option Nat
  previewLength : Option Nat
  deriving DecidableEq, Repr

/-- The behaviour bundle a registered handler exposes to the dispatcher
(the `CompressionHandler` interface). -/
structure HandlerImpl where
  getSupportedExtensions : List String
  isFormatValid : String → Bool
  compress : FileSystem → String → String → Nat → FileSystem × MCPResult
  decompress : FileSystem → String → String → Nat → FileSystem × MCPResult
  listContents : FileSystem → String → Nat → FileSystem × MCPResult

/-- The gzip handler packaged for the registry. -/
def gzipHandlerImpl (codec : GzipCodec) : HandlerImpl :=
  { getSupportedExtensions := GzipHandler.getSupportedExtensions
    isFormatValid := GzipHandler.isFormatValid
    compress := GzipHandler.compress codec
    decompress := fun fs s d _strip => GzipHandler.decompress codec fs s d
    listContents := GzipHandler.listContents codec }

/-- Model of `createUnifiedCompressionTool(registry).execute`. -/
def unifiedExecute (registry : FormatRegistry HandlerImpl) (fs : FileSystem)
    (p : UnifiedParams) : FileSystem × MCPResult :=
  match registry.getHandlerByFormat p.format with
  | none =>
      (fs, createErrorResult ("Unsupported format: " ++ p.format)
        (some ("Supported formats are: " ++ joinWith ", " registry.getAllFormats)))
  | some handler =>
    if !(fileExists fs p.sourcePath) then
      (fs, createErrorResult ("Source path does not exist: " ++ p.sourcePath) none)
    else
      match p.operation with
      | .compress =>
        if !(isDirectory fs p.sourcePath) && !(isFile fs p.sourcePath) then
          (fs, createErrorResult
            ("Source path must be a file or directory: " ++ p.sourcePath) none)
        else
          let defaultExt := handler.getSupportedExtensions.headD ""
          let targetPath := resolveOutputPath p.sourcePath p.outputDirectory
            p.outputFileName (some defaultExt)
          if fileExists fs targetPath then
            (fs, createErrorResult ("Output file already exists: " ++ targetPath)
              (some "Please specify a different output file name or directory"))
          else
            handler.compress fs p.sourcePath targetPath (optOr p.compressionLevel 6)
      | .decompress =>
        if !(isFile fs p.sourcePath) then
          (fs, createErrorResult ("Source path must be a file: " ++ p.sourcePath) none)
        else if !(handler.isFormatValid p.sourcePath) then
          (fs, createErrorResult
            ("File is not a valid " ++ p.format ++ " file: " ++ p.sourcePath)
            (some ("Expected file extensions: " ++
              joinWith ", " handler.getSupportedExtensions)))
        else
          let targetDir :=
            match p.outputDirectory with
            | some d => if d = "" then dirname p.sourcePath else d
            | none => dirname p.sourcePath
          match ensureDir fs targetDir with
          | .error e =>
              (fs, createErrorResult ("Error during decompress operation: " ++ e) none)
          | .ok fs1 =>
              handler.decompress fs1 p.sourcePath targetDir (optOr p.stripComponents 0)
      | .list =>
        if !(isFile fs p.sourcePath) then
          (fs, createErrorResult ("Source path must be a file: " ++ p.sourcePath) none)
        else if !(handler.isFormatValid p.sourcePath) then
          (fs, createErrorResult
            ("File is not a valid " ++ p.format ++ " file: " ++ p.sourcePath)
            (some ("Expected file extensions: " ++
              joinWith ", " handler.getSupportedExtensions)))
        else
          handler.listContents fs p.sourcePath (optOr p.previewLength 1000)

/-- The registry as populated by `src/index.ts`: only the gzip handler
is registered. -/
def serverRegistry (codec : GzipCodec) : FormatRegistry HandlerImpl :=
  FormatRegistry.register HandlerImpl.getSupportedExtensions
    { handlers := [], extensionMap := [] } "gzip" (gzipHandlerImpl codec)

/-! ## Result well-formedness

The `OperationResult` tagged-union invariant: exactly one of the two
variants is populated, and `isError` tells which. -/

/-- A result is well formed when it is an error with the `error` variant
populated and no `content`, or a success with the `content` variant
populated and no `error`. -/
def resultWellFormed (r : MCPResult) : Prop :=
  (r.isError = true ∧ r.content = none ∧ ∃ m d, r.error = some (m, d)) ∨
  (r.isError = false ∧ r.error = none ∧ ∃ t data, r.content = some (t, data))

theorem resultWellFormed_error (m : String) (d : Option String) :
    resultWellFormed (createErrorResult m d) :=
  Or.inl ⟨rfl, rfl, m, d, rfl⟩

theorem resultWellFormed_success (m : String) (data : List (String × JsonVal)) :
    resultWellFormed (createSuccessResult m data) :=
  Or.inr ⟨rfl, rfl, m, data, rfl⟩

/-! ## Lemmas about the registry maps -/

theorem lookup_setAssoc_self {α : Type} (l : List (String × α)) (k : String) (v : α) :
    List.lookup k (setAssoc l k v) = some v := by
  induction l with
  | nil => simp [setAssoc, List.lookup]
  | cons hd tl ih =>
      obtain ⟨k1, v1⟩ := hd
      by_cases h : k1 = k
      · simp [setAssoc, h, List.lookup]
      · have hk : (k == k1) = false := by simpa using Ne.symm h
        simp only [setAssoc, if_neg h, List.lookup, hk]
        exact ih

/-- Claim C9: Registry resolution by format name is case-insensitive: any
two format names with the same lowercase form resolve to the same
handler, and after registering a handler under a name, every
case-variant of that name resolves to that handler. -/
theorem C9_registry_case_insensitive {α : Type} (getExts : α → List String)
    (r : FormatRegistry α) (name s t : String) (h : α)
    (hst : jsToLower s = jsToLower t)
    (hsn : jsToLower s = jsToLower name) :
    r.getHandlerByFormat s = r.getHandlerByFormat t ∧
    (FormatRegistry.register getExts r name h).getHandlerByFormat s = some h := by
  constructor
  · unfold FormatRegistry.getHandlerByFormat
    rw [hst]
  · unfold FormatRegistry.register FormatRegistry.getHandlerByFormat
    simp only
    rw [hsn]
    exact lookup_setAssoc_self r.handlers (jsToLower name) h

/-- Witness for C9: `"GZIP"` and `"gzip"` resolve identically, and a
handler registered as `"gzip"` is found under `"GZIP"`. -/
theorem C9_registry_case_insensitive_witness :
    jsToLower "GZIP" = jsToLower "gzip" ∧
    (FormatRegistry.mk [("gzip", 1)] [] : FormatRegistry Nat).getHandlerByFormat "GZIP"
      = (FormatRegistry.mk [("gzip", 1)] [] : FormatRegistry Nat).getHandlerByFormat "gzip" ∧
    (FormatRegistry.register (fun _ => []) (FormatRegistry.mk [] [] : FormatRegistry Nat)
      "gzip" 1).getHandlerByFormat "GZIP" = some 1 := by
  refine ⟨by decide, ?_, ?_⟩
  · exact (C9_registry_case_insensitive (fun _ => []) (FormatRegistry.mk [("gzip", 1)] [])
      "gzip" "GZIP" "gzip" 1 (by decide) (by decide)).1
  · exact (C9_registry_case_insensitive (fun _ => []) (FormatRegistry.mk [] [])
      "gzip" "GZIP" "gzip" 1 (by decide) (by decide)).2

/-! ## MemoryWritable: bounded-sink invariant -/

/-- Taking from a previously `take`n prefix prepended to anything is the
same as taking from the original. -/
theorem take_append_take {α : Type} (l r : List α) (k : Nat) :
    ((l.take k) ++ r).take k = (l ++ r).take k := by
  rcases Nat.le_total k l.length with h | h
  · rw [List.take_append_eq_append_take, List.take_take, min_self,
      List.take_append_eq_append_take, List.length_take,
      min_eq_left h, Nat.sub_self, Nat.sub_eq_zero_of_le h]
  · have hl : l.take k = l := List.take_of_length_le h
    rw [hl]

/-- Taking `n` elements equals taking `min n length` elements. -/
theorem take_eq_take_min {α : Type} (l : List α) (n : Nat) :
    l.take n = l.take (min n l.length) := by
  rcases Nat.le_total n l.length with h | h
  · rw [Nat.min_eq_left h]
  · rw [Nat.min_eq_right h, List.take_of_length_le h, List.take_length]

theorem MemoryWritable.write_spec (m : MemoryWritable) (c : List Nat)
    (h1 : m.totalLength = m.getContent.length)
    (h2 : m.totalLength ≤ m.maxLength) :
    (m.write c).maxLength = m.maxLength ∧
    (m.write c).totalLength = (m.write c).getContent.length ∧
    (m.write c).totalLength ≤ m.maxLength ∧
    (m.write c).getContent = (m.getContent ++ c).take m.maxLength := by
  have hcon : m.getContent = m.chunks.flatten := rfl
  have h1' : m.totalLength = m.chunks.flatten.length := by rw [hcon] at h1; exact h1
  by_cases hlt : m.totalLength < m.maxLength
  · have hc : (if c.length > m.maxLength - m.totalLength
        then c.take (m.maxLength - m.totalLength) else c)
        = c.take (m.maxLength - m.totalLength) := by
      split
      · rfl
      · rw [List.take_of_length_le (by omega)]
    have hw : m.write c =
        { m with
            chunks := m.chunks ++ [c.take (m.maxLength - m.totalLength)],
            totalLength :=
              m.totalLength + (c.take (m.maxLength - m.totalLength)).length } := by
      simp only [MemoryWritable.write, if_pos hlt, hc]
    have hflat : (m.chunks ++ [c.take (m.maxLength - m.totalLength)]).flatten
        = m.chunks.flatten ++ c.take (m.maxLength - m.totalLength) := by
      rw [List.flatten_append, List.flatten_cons, List.flatten_nil, List.append_nil]
    have hle : (c.take (m.maxLength - m.totalLength)).length
        ≤ m.maxLength - m.totalLength := by
      rw [List.length_take]
      exact min_le_left _ _
    refine ⟨by rw [hw], ?_, ?_, ?_⟩
    · show (m.write c).totalLength = (m.write c).chunks.flatten.length
      rw [hw]
      simp only [hflat, List.length_append]
      omega
    · rw [hw]
      simp only
      omega
    · show (m.write c).chunks.flatten = (m.getContent ++ c).take m.maxLength
      rw [hw]
      simp only [hflat, hcon]
      rw [List.take_append_eq_append_take]
      congr 1
      · exact (List.take_of_length_le (by omega)).symm
      · congr 1
        omega
  · have hw : m.write c = m := by
      rw [MemoryWritable.write, if_neg hlt]
    rw [hw]
    refine ⟨rfl, h1, h2, ?_⟩
    rw [List.take_append_eq_append_take,
      List.take_of_length_le (le_of_eq (by omega) : m.getContent.length ≤ m.maxLength)]
    have hz : m.maxLength - m.getContent.length = 0 := by omega
    rw [hz]
    simp

theorem MemoryWritable.writeAll_spec (cs : List (List Nat)) :
    ∀ (m : MemoryWritable),
      m.totalLength = m.getContent.length →
      m.totalLength ≤ m.maxLength →
      (m.writeAll cs).maxLength = m.maxLength ∧
      (m.writeAll cs).totalLength = (m.writeAll cs).getContent.length ∧
      (m.writeAll cs).totalLength ≤ m.maxLength ∧
      (m.writeAll cs).getContent = (m.getContent ++ cs.flatten).take m.maxLength := by
  induction cs with
  | nil =>
      intro m h1 h2
      have hnil : m.writeAll [] = m := rfl
      rw [hnil]
      refine ⟨rfl, h1, h2, ?_⟩
      rw [List.flatten_nil, List.append_nil, List.take_of_length_le (by omega)]
  | cons c cs ih =>
      intro m h1 h2
      obtain ⟨w1, w2, w3, w4⟩ := MemoryWritable.write_spec m c h1 h2
      have step : m.writeAll (c :: cs) = (m.write c).writeAll cs := rfl
      obtain ⟨i1, i2, i3, i4⟩ := ih (m.write c) w2 (by omega)
      rw [step]
      rw [w1] at i1 i3 i4
      refine ⟨i1, i2, i3, ?_⟩
      rw [i4, w4, take_append_take, List.flatten_cons, List.append_assoc]

/-- Claim C10: The bounded in-memory preview sink: after any sequence of
`_write` calls with arbitrary chunks, `totalLength` never exceeds
`maxLength`, and `getContent()` is exactly the first
`min maxLength totalBytesWritten` bytes of the written data, in order. -/
theorem C10_memory_writable_bound (maxLength : Nat) (cs : List (List Nat)) :
    ((MemoryWritable.mk0 maxLength).writeAll cs).totalLength ≤ maxLength ∧
    ((MemoryWritable.mk0 maxLength).writeAll cs).getContent
      = cs.flatten.take (min maxLength cs.flatten.length) := by
  obtain ⟨-, -, h3, h4⟩ :=
    MemoryWritable.writeAll_spec cs (MemoryWritable.mk0 maxLength) rfl (Nat.zero_le _)
  exact ⟨h3, by rw [h4]; exact take_eq_take_min _ _⟩


/-! ## Dispatcher-level theorems -/

/-- Claim C6: For every request whose `sourcePath` does not exist (and
whose format resolves to a registered handler, so that the request
reaches the existence check), the dispatcher fails with the
`NotFoundError`-kind failure and leaves the filesystem untouched: no
output file is written and no output directory is created. -/
theorem C6_missing_source (registry : FormatRegistry HandlerImpl)
    (fs : FileSystem) (p : UnifiedParams) (h : HandlerImpl)
    (hh : registry.getHandlerByFormat p.format = some h)
    (hne : fileExists fs p.sourcePath = false) :
    unifiedExecute registry fs p
      = (fs, createErrorResult ("Source path does not exist: " ++ p.sourcePath) none) := by
  unfold unifiedExecute
  rw [hh]
  simp [hne]

/-- Witness for C6: the server registry resolves `"gzip"`, the source is
missing on an empty filesystem, and the dispatcher returns the
not-found failure without touching the filesystem. -/
theorem C6_missing_source_witness :
    (serverRegistry idCodec).getHandlerByFormat "gzip" = some (gzipHandlerImpl idCodec) ∧
    fileExists [] "missing.txt" = false ∧
    unifiedExecute (serverRegistry idCodec) []
        (UnifiedParams.mk .compress "gzip" "missing.txt" none none none none none)
      = ([], createErrorResult "Source path does not exist: missing.txt" none) := by
  refine ⟨rfl, by decide, ?_⟩
  exact C6_missing_source (serverRegistry idCodec) [] _ (gzipHandlerImpl idCodec) rfl (by decide)

/-- Claim C1: The claim asserts that any dispatcher request whose
`sourcePath` contains a `..` segment fails with a `TraversalError`-kind
failure and performs no filesystem mutation.  The code violates this:
`CompressionUtils.normalizePath` implements exactly that rejection, but
`createUnifiedCompressionTool.execute` never invokes it (no call site
exists), so a traversal path that exists on disk is processed normally.
Concretely, compressing `../data.txt` succeeds and creates
`../data.txt.gz` plus the `..` directory entry — a filesystem mutation
and no `TraversalError`. -/
theorem C1_traversal_check_dead_code :
    normalizePath "../data.txt"
      = .error "Path traversal detected. Path cannot contain \"..\"" ∧
    (unifiedExecute (serverRegistry idCodec) [("../data.txt", .file [1, 2, 3])]
        (UnifiedParams.mk .compress "gzip" "../data.txt" none none none none none)).2.isError
      = false ∧
    fileExists
      (unifiedExecute (serverRegistry idCodec) [("../data.txt", .file [1, 2, 3])]
        (UnifiedParams.mk .compress "gzip" "../data.txt" none none none none none)).1
      "../data.txt.gz" = true ∧
    (unifiedExecute (serverRegistry idCodec) [("../data.txt", .file [1, 2, 3])]
        (UnifiedParams.mk .compress "gzip" "../data.txt" none none none none none)).1
      ≠ [("../data.txt", .file [1, 2, 3])] := by
  exact ⟨rfl, by decide, by decide, by decide⟩

/-- Claim C2 counterexample: The claim states that an explicit
`outputFileName` bypasses the output-existence check of the unified
tool, so that compression proceeds even when the target exists.  At
this input the unified tool is given an explicit `outputFileName` whose
target `dir/a.gz` exists, yet the dispatcher returns the
`ExistingOutputError`-kind failure and the filesystem is unchanged —
the bypass exists only in the standalone zip tool. -/
theorem C2_explicit_name_not_bypassed :
    (unifiedExecute (serverRegistry idCodec)
        [("dir/a.txt", .file [1, 2, 3]), ("dir/a.gz", .file [9])]
        (UnifiedParams.mk .compress "gzip" "dir/a.txt" none (some "a.gz") none none none))
      = ([("dir/a.txt", .file [1, 2, 3]), ("dir/a.gz", .file [9])],
         createErrorResult "Output file already exists: dir/a.gz"
           (some "Please specify a different output file name or directory")) ∧
    (unifiedExecute (serverRegistry idCodec)
        [("dir/a.txt", .file [1, 2, 3]), ("dir/a.gz", .file [9])]
        (UnifiedParams.mk .compress "gzip" "dir/a.txt" none (some "a.gz") none none none)).2.isError
      ≠ false := by
  exact ⟨by decide, by decide⟩

/-- Claim C2 (amended): For every compress request through the unified
tool whose format resolves, whose source exists as a file, and whose
resolved target path already exists, the dispatcher returns the
`ExistingOutputError`-kind failure and does not invoke the handler —
regardless of whether `outputFileName` was supplied; the explicit-name
bypass exists only in the standalone zip tool, not in the unified
dispatcher. -/
theorem C2_existing_output (registry : FormatRegistry HandlerImpl)
    (fs : FileSystem) (p : UnifiedParams) (handler : HandlerImpl)
    (hop : p.operation = .compress)
    (hh : registry.getHandlerByFormat p.format = some handler)
    (hfile : isFile fs p.sourcePath = true)
    (htgt : fileExists fs
      (resolveOutputPath p.sourcePath p.outputDirectory p.outputFileName
        (some (handler.getSupportedExtensions.headD ""))) = true) :
    unifiedExecute registry fs p
      = (fs, createErrorResult
          ("Output file already exists: "
            ++ resolveOutputPath p.sourcePath p.outputDirectory p.outputFileName
                 (some (handler.getSupportedExtensions.headD "")))
          (some "Please specify a different output file name or directory")) := by
  have hex : fileExists fs p.sourcePath = true := by
    unfold isFile at hfile
    unfold fileExists
    rcases hlk : List.lookup p.sourcePath fs with _ | e
    · rw [hlk] at hfile
      simp at hfile
    · rfl
  have htgt' : fileExists fs
      (resolveOutputPath p.sourcePath p.outputDirectory p.outputFileName
        (some (handler.getSupportedExtensions.head?.getD ""))) = true := by
    rw [← List.headD_eq_head?_getD]
    exact htgt
  unfold unifiedExecute
  rw [hh, hop]
  simp [hex, hfile, htgt']

/-- Witness for C2 (amended): a concrete compress request with an
explicit `outputFileName` whose target exists; the theorem applies and
the dispatcher rejects it. -/
theorem C2_existing_output_witness :
    (UnifiedParams.mk .compress "gzip" "dir/a.txt" none (some "a.gz")
        none none none).operation = .compress ∧
    isFile [("dir/a.txt", .file [1, 2, 3]), ("dir/a.gz", .file [9])] "dir/a.txt" = true ∧
    unifiedExecute (serverRegistry idCodec)
        [("dir/a.txt", .file [1, 2, 3]), ("dir/a.gz", .file [9])]
        (UnifiedParams.mk .compress "gzip" "dir/a.txt" none (some "a.gz") none none none)
      = ([("dir/a.txt", .file [1, 2, 3]), ("dir/a.gz", .file [9])],
         createErrorResult "Output file already exists: dir/a.gz"
           (some "Please specify a different output file name or directory")) := by
  refine ⟨rfl, by decide, ?_⟩
  have h := C2_existing_output (serverRegistry idCodec)
    [("dir/a.txt", .file [1, 2, 3]), ("dir/a.gz", .file [9])]
    (UnifiedParams.mk .compress "gzip" "dir/a.txt" none (some "a.gz") none none none)
    (gzipHandlerImpl idCodec) rfl rfl (by decide) (by decide)
  exact h


/-! ## C3: no exception crosses the operation boundary -/

theorem gzip_compress_wellFormed (codec : GzipCodec) (fs : FileSystem)
    (s t : String) (lvl : Nat) :
    resultWellFormed (GzipHandler.compress codec fs s t lvl).2 := by
  unfold GzipHandler.compress
  repeat' split
  all_goals
    first
      | apply resultWellFormed_error
      | apply resultWellFormed_success

theorem gzip_decompress_wellFormed (codec : GzipCodec) (fs : FileSystem)
    (s d : String) :
    resultWellFormed (GzipHandler.decompress codec fs s d).2 := by
  unfold GzipHandler.decompress
  repeat' split
  all_goals
    first
      | apply resultWellFormed_error
      | apply resultWellFormed_success

theorem gzip_listContents_wellFormed (codec : GzipCodec) (fs : FileSystem)
    (s : String) (n : Nat) :
    resultWellFormed (GzipHandler.listContents codec fs s n).2 := by
  unfold GzipHandler.listContents
  repeat' split
  all_goals
    first
      | apply resultWellFormed_error
      | apply resultWellFormed_success

/-- The server registry resolves any format name to the gzip handler or
to nothing. -/
theorem serverRegistry_lookup (codec : GzipCodec) (f : String) :
    (serverRegistry codec).getHandlerByFormat f = some (gzipHandlerImpl codec) ∨
    (serverRegistry codec).getHandlerByFormat f = none := by
  unfold serverRegistry FormatRegistry.getHandlerByFormat FormatRegistry.register
  simp only [setAssoc, List.lookup]
  split
  · exact Or.inl rfl
  · exact Or.inr rfl

theorem unified_wellFormed (codec : GzipCodec) (fs : FileSystem) (p : UnifiedParams) :
    resultWellFormed (unifiedExecute (serverRegistry codec) fs p).2 := by
  unfold unifiedExecute
  rcases serverRegistry_lookup codec p.format with h | h <;> rw [h]
  · simp only [gzipHandlerImpl]
    repeat' split
    all_goals
      first
        | apply resultWellFormed_error
        | apply gzip_compress_wellFormed
        | apply gzip_decompress_wellFormed
        | apply gzip_listContents_wellFormed
  · apply resultWellFormed_error

/-- Claim C3: Every public operation returns a well-formed
`OperationResult` value for every input: the unified dispatcher over the
server registry and each gzip handler operation always yield either an
error result (`isError = true` with the `error` variant populated) or a
success result (`isError = false` with the `content` variant populated);
no execution path escapes without producing a result. -/
theorem C3_no_exception_escapes :
    (∀ (codec : GzipCodec) (fs : FileSystem) (p : UnifiedParams),
        resultWellFormed (unifiedExecute (serverRegistry codec) fs p).2) ∧
    (∀ (codec : GzipCodec) (fs : FileSystem) (s t : String) (lvl : Nat),
        resultWellFormed (GzipHandler.compress codec fs s t lvl).2) ∧
    (∀ (codec : GzipCodec) (fs : FileSystem) (s d : String),
        resultWellFormed (GzipHandler.decompress codec fs s d).2) ∧
    (∀ (codec : GzipCodec) (fs : FileSystem) (s : String) (n : Nat),
        resultWellFormed (GzipHandler.listContents codec fs s n).2) :=
  ⟨unified_wellFormed, gzip_compress_wellFormed,
   gzip_decompress_wellFormed, gzip_listContents_wellFormed⟩


/-! ## Progress arithmetic and traces (C5, C7) -/

theorem jsRoundDiv_mono (den : Nat) {a b : Nat} (h : a ≤ b) :
    jsRoundDiv a den ≤ jsRoundDiv b den :=
  Nat.div_le_div_right (by omega)

theorem jsRoundDiv_full (t : Nat) (ht : 0 < t) : jsRoundDiv (t * 100) t = 100 := by
  unfold jsRoundDiv
  have h1 : 2 * (t * 100) + t = t + 2 * t * 100 := by ring
  rw [h1, Nat.add_mul_div_left _ _ (by omega : 0 < 2 * t),
    Nat.div_eq_of_lt (by omega)]

/-- The integer computation `(2 * num + den) / (2 * den)` is exactly the
round-half-up of the rational `num / den`. -/
theorem jsRoundDiv_eq_floor_add_half (num den : Nat) (h : 0 < den) :
    jsRoundDiv num den = ⌊((num : ℚ) / (den : ℚ) + 1 / 2)⌋₊ := by
  have hden : ((den : ℚ)) ≠ 0 := by positivity
  have hcast : ((num : ℚ) / (den : ℚ) + 1 / 2)
      = ((2 * num + den : Nat) : ℚ) / ((2 * den : Nat) : ℚ) := by
    push_cast
    field_simp
    ring
  rw [jsRoundDiv, hcast, Nat.floor_div_nat, Nat.floor_natCast]

/-- Claim C7 counterexample: At `bytesProcessed = 2`, `totalBytes = 3` the
emitted `percentComplete` is `67` (round half up), not the claimed
`floor(2 / 3 * 100) = 66`. -/
theorem C7_round_not_floor :
    (formatProgress 2 (some 3) none none).percentComplete = some 67 ∧
    (2 * 100) / 3 = 66 ∧
    (formatProgress 2 (some 3) none none).percentComplete ≠ some ((2 * 100) / 3) := by
  exact ⟨by decide, by decide, by decide⟩

/-- Claim C7 (amended): Whenever a progress event is emitted with a known
nonzero `totalBytes`, its `percentComplete` equals
`min (round-half-up (bytesProcessed / totalBytes * 100)) 100` — rounding
to nearest (half up) capped at 100, not floor; when `totalBytes` is `0`
(or absent) no percentage is attached at all. -/
theorem C7_percent_formula (b t : Nat) (s d : Option String) (ht : 0 < t) :
    (formatProgress b (some t) s d).percentComplete
      = some (min ⌊((b : ℚ) * 100 / (t : ℚ) + 1 / 2)⌋₊ 100) := by
  have ht' : t ≠ 0 := by omega
  have h := jsRoundDiv_eq_floor_add_half (b * 100) t ht
  have hcast : ((b * 100 : Nat) : ℚ) = (b : ℚ) * 100 := by push_cast; ring
  rw [hcast] at h
  simp [formatProgress, ht', h]

/-- Witness for C7 (amended): at `b = 2`, `t = 3` the formula evaluates
and matches the emitted value. -/
theorem C7_percent_formula_witness :
    (0 : Nat) < 3 ∧
    (formatProgress 2 (some 3) none none).percentComplete
      = some (min ⌊((2 : ℚ) * 100 / (3 : ℚ) + 1 / 2)⌋₊ 100) :=
  ⟨by decide, C7_percent_formula 2 3 none none (by decide)⟩

theorem runningTotals_head (s : Nat) (cs : List Nat) :
    (runningTotals s cs).head? = some s := by
  cases cs <;> rfl

theorem runningTotals_ne_nil (s : Nat) (cs : List Nat) :
    runningTotals s cs ≠ [] := by
  cases cs <;> simp [runningTotals]

theorem runningTotals_chain : ∀ (cs : List Nat) (s : Nat),
    List.Chain' (· ≤ ·) (runningTotals s cs)
  | [], s => by simp [runningTotals]
  | c :: cs, s => by
      have ih := runningTotals_chain cs (s + c)
      have hh := runningTotals_head (s + c) cs
      rw [runningTotals, List.chain'_cons']
      refine ⟨fun y hy => ?_, ih⟩
      rw [hh] at hy
      simp at hy
      omega

theorem runningTotals_getLast : ∀ (cs : List Nat) (s : Nat),
    (runningTotals s cs).getLast? = some (s + cs.sum)
  | [], s => by simp [runningTotals]
  | c :: cs, s => by
      have ih := runningTotals_getLast cs (s + c)
      rw [runningTotals, List.getLast?_cons, ih]
      simp [List.sum_cons]
      omega


theorem formatProgress_stage (b : Nat) (tb : Option Nat) (s : String)
    (d : Option String) : (formatProgress b tb (some s) d).stage = s := by
  unfold formatProgress
  rcases tb with _ | t
  · rfl
  · simp only
    split <;> rfl

theorem filterMap_percent_of_map (l : List Nat) (f : Nat → ProgressInfo)
    (g : Nat → Nat) (hf : ∀ c, (f c).percentComplete = some (g c)) :
    (l.map f).filterMap ProgressInfo.percentComplete = l.map g := by
  induction l with
  | nil => rfl
  | cons c cs ih => simp [hf, ih]

/-- Claim C5 counterexample: A successful gzip compression of a 10-byte
file delivered in one chunk: the final emitted event reaches
`percentComplete = 100`, but its stage is `"compressing"`, never
`"complete"` — `GzipHandler.compress` emits no completion event. -/
theorem C5_no_complete_stage :
    ((gzipStreamProgressTrace "compressing" [10] 10).getLast?.map ProgressInfo.stage
      ≠ some "complete") ∧
    (gzipStreamProgressTrace "compressing" [10] 10).getLast?.map ProgressInfo.stage
      = some "compressing" ∧
    ((gzipStreamProgressTrace "compressing" [10] 10).filterMap
      ProgressInfo.percentComplete).getLast? = some 100 := by
  exact ⟨by decide, by decide, by decide⟩

/-- Claim C5 (amended): For every successful gzip streaming operation on a
nonempty source whose chunks cover the whole file, the emitted
`percentComplete` sequence is non-decreasing and its final value is
exactly `100`; however every event of the operation carries the
operation stage (`"compressing"` or `"decompressing"`), so the final
event does not have `stage = "complete"` (only `listContents` emits a
completion event). -/
theorem C5_progress_monotone (stageName : String) (chunks : List Nat)
    (totalSize : Nat) (hsum : chunks.sum = totalSize) (hpos : 0 < totalSize) :
    List.Chain' (· ≤ ·)
      ((gzipStreamProgressTrace stageName chunks totalSize).filterMap
        ProgressInfo.percentComplete) ∧
    ((gzipStreamProgressTrace stageName chunks totalSize).filterMap
      ProgressInfo.percentComplete).getLast? = some 100 ∧
    (∀ p ∈ gzipStreamProgressTrace stageName chunks totalSize, p.stage = stageName) := by
  have hne : totalSize ≠ 0 := by omega
  have hpc : ∀ c : Nat,
      (formatProgress c (some totalSize) (some stageName) none).percentComplete
        = some (min (jsRoundDiv (c * 100) totalSize) 100) := by
    intro c
    simp [formatProgress, hne]
  have key : (gzipStreamProgressTrace stageName chunks totalSize).filterMap
      ProgressInfo.percentComplete
      = (runningTotals 0 chunks).map
          (fun c => min (jsRoundDiv (c * 100) totalSize) 100) := by
    unfold gzipStreamProgressTrace
    exact filterMap_percent_of_map _ _ _ hpc
  refine ⟨?_, ?_, ?_⟩
  · rw [key, List.chain'_map]
    refine (runningTotals_chain chunks 0).imp ?_
    intro a b hab
    exact min_le_min (jsRoundDiv_mono totalSize (by omega)) le_rfl
  · rw [key, List.getLast?_map, runningTotals_getLast]
    have hz : 0 + chunks.sum = totalSize := by omega
    rw [hz]
    show some (min (jsRoundDiv (totalSize * 100) totalSize) 100) = some 100
    rw [jsRoundDiv_full totalSize hpos, min_self]
  · intro p hp
    unfold gzipStreamProgressTrace at hp
    obtain ⟨c, -, rfl⟩ := List.mem_map.1 hp
    exact formatProgress_stage c (some totalSize) stageName none

/-- Witness for C5 (amended): compressing a 10-byte file read in chunks
of 4 and 6 bytes. -/
theorem C5_progress_monotone_witness :
    ([4, 6] : List Nat).sum = 10 ∧ (0 : Nat) < 10 ∧
    (List.Chain' (· ≤ ·)
      ((gzipStreamProgressTrace "compressing" [4, 6] 10).filterMap
        ProgressInfo.percentComplete) ∧
    ((gzipStreamProgressTrace "compressing" [4, 6] 10).filterMap
      ProgressInfo.percentComplete).getLast? = some 100 ∧
    (∀ p ∈ gzipStreamProgressTrace "compressing" [4, 6] 10,
      p.stage = "compressing")) :=
  ⟨by decide, by decide,
   C5_progress_monotone "compressing" [4, 6] 10 (by decide) (by decide)⟩


/-! ## C8: ratio formulas -/

/-- Claim C8 counterexample: A successful `GzipHandler.decompress` of a
2-byte source into a 4-byte payload reports
`expansionRatio = 4 / 2 * 100 = 200` (an unsigned quotient), while the
claimed signed formula `(4 / 2 - 1) * 100` yields `100`: the unified
gzip handler does not report the signed expansion ratio. -/
theorem C8_expansion_ratio_unsigned :
    (GzipHandler.decompress (GzipCodec.mk (fun _ c => c) (fun _ => .ok [[1, 2, 3, 4]]))
        [("a.gz", .file [9, 9])] "a.gz" ".").2.isError = false ∧
    dataLookup (GzipHandler.decompress
        (GzipCodec.mk (fun _ c => c) (fun _ => .ok [[1, 2, 3, 4]]))
        [("a.gz", .file [9, 9])] "a.gz" ".").2 "expansionRatio"
      = some (.rat (ratioPct 2 4)) ∧
    ratioPct 2 4 = 200 ∧
    unzipExtractionPct 2 4 = 100 ∧
    (200 : ℚ) ≠ 100 := by
  refine ⟨by decide, rfl, by norm_num [ratioPct], by norm_num [unzipExtractionPct],
    by norm_num⟩

/-- Claim C8 (amended): After a successful pipeline: compression reports
`compressedSize / originalSize * 100`; the decompression of the unified gzip handler
reports the unsigned quotient
`decompressedSize / compressedSize * 100` (which exceeds the claimed
signed quantity by exactly 100); only the standalone unzip tool
computes the signed `(decompressedSize / compressedSize - 1) * 100`. -/
theorem C8_ratio_formulas :
    (∀ (codec : GzipCodec) (fs : FileSystem) (s t : String) (lvl : Nat)
        (content : List Nat),
      List.lookup s fs = some (.file content) →
      (GzipHandler.compress codec fs s t lvl).2.isError = false →
      dataLookup (GzipHandler.compress codec fs s t lvl).2 "compressionRatio"
        = some (.rat (ratioPct content.length
            (codec.gz (if lvl = 0 then 6 else lvl) content).length))) ∧
    (∀ (codec : GzipCodec) (fs : FileSystem) (s d : String) (content : List Nat)
        (chunks : List (List Nat)),
      List.lookup s fs = some (.file content) →
      codec.gunzipChunks content = .ok chunks →
      (GzipHandler.decompress codec fs s d).2.isError = false →
      dataLookup (GzipHandler.decompress codec fs s d).2 "expansionRatio"
        = some (.rat (ratioPct content.length chunks.flatten.length))) ∧
    (∀ c dsz : Nat, ratioPct c dsz = unzipExtractionPct c dsz + 100) := by
  refine ⟨?_, ?_, ?_⟩
  · intro codec fs s t lvl content hlk herr
    have hex : fileExists fs s = true := by unfold fileExists; rw [hlk]; rfl
    have hif : isFile fs s = true := by unfold isFile; rw [hlk]
    have hsz : getFileSize fs s = .ok content.length := by unfold getFileSize; rw [hlk]
    have hfc : fileContent fs s = content := by unfold fileContent; rw [hlk]
    unfold GzipHandler.compress at herr ⊢
    rw [hex, hif, hsz, hfc] at herr ⊢
    rcases hed : ensureDir fs (dirname t) with e | fs1
    · simp [createErrorResult, hed] at herr
    · simp [dataLookup, createSuccessResult, List.lookup, hed]
  · intro codec fs s d content chunks hlk hch herr
    have hex : fileExists fs s = true := by unfold fileExists; rw [hlk]; rfl
    have hif : isFile fs s = true := by unfold isFile; rw [hlk]
    have hsz : getFileSize fs s = .ok content.length := by unfold getFileSize; rw [hlk]
    have hfc : fileContent fs s = content := by unfold fileContent; rw [hlk]
    unfold GzipHandler.decompress at herr ⊢
    rw [hex, hif, hsz, hfc, hch] at herr ⊢
    rcases hed : ensureDir fs d with e | fs1
    · simp [createErrorResult, hed] at herr
    · simp [dataLookup, createSuccessResult, List.lookup, hed]
  · intro c dsz
    unfold ratioPct unzipExtractionPct
    ring

/-- Witness for C8 (amended): a concrete successful compression and
decompression with the identity codec. -/
theorem C8_ratio_formulas_witness :
    (List.lookup "a.txt" ([("a.txt", FSEntry.file [1, 2, 3])] : FileSystem)
      = some (.file [1, 2, 3])) ∧
    (GzipHandler.compress idCodec [("a.txt", .file [1, 2, 3])] "a.txt" "a.txt.gz"
      6).2.isError = false ∧
    dataLookup (GzipHandler.compress idCodec [("a.txt", .file [1, 2, 3])] "a.txt"
        "a.txt.gz" 6).2 "compressionRatio"
      = some (.rat (ratioPct ([1, 2, 3] : List Nat).length
          (idCodec.gz (if (6 : Nat) = 0 then 6 else 6) [1, 2, 3]).length)) := by
  refine ⟨rfl, by decide, ?_⟩
  exact C8_ratio_formulas.1 idCodec [("a.txt", .file [1, 2, 3])] "a.txt" "a.txt.gz" 6
    [1, 2, 3] rfl (by decide)


/-! ## C4: preview truncation -/

theorem accumGo_destroyed (N : Nat) (st : ListAccum) (cs : List (List Nat))
    (h : st.destroyed = true) : accumGo N st cs = st := by
  induction cs with
  | nil => rfl
  | cons c cs ih =>
      have hs : listStep N st c = st := by simp [listStep, h]
      rw [accumGo, hs]
      exact ih

theorem accumGo_spec (N : Nat) :
    ∀ (cs : List (List Nat)) (st : ListAccum),
      st.destroyed = decide (N ≤ st.totalLength) →
      st.totalLength = st.chunksAcc.flatten.length →
      (accumGo N st cs).destroyed = decide (N ≤ (accumGo N st cs).totalLength) ∧
      (accumGo N st cs).totalLength = (accumGo N st cs).chunksAcc.flatten.length ∧
      st.totalLength ≤ (accumGo N st cs).totalLength ∧
      (accumGo N st cs).chunksAcc.flatten
        = st.chunksAcc.flatten
            ++ cs.flatten.take ((accumGo N st cs).totalLength - st.totalLength) ∧
      (accumGo N st cs).totalLength ≤ st.totalLength + cs.flatten.length ∧
      ((accumGo N st cs).totalLength = st.totalLength + cs.flatten.length
        ∨ N ≤ (accumGo N st cs).totalLength) := by
  intro cs
  induction cs with
  | nil =>
      intro st h1 h2
      have hnil : accumGo N st [] = st := rfl
      rw [hnil]
      exact ⟨h1, h2, le_rfl, by simp, by simp, Or.inl (by simp)⟩
  | cons c cs ih =>
      intro st h1 h2
      by_cases hd : st.destroyed = true
      · have hstop := accumGo_destroyed N st (c :: cs) hd
        have hNle : N ≤ st.totalLength := by
          rw [h1] at hd
          exact of_decide_eq_true hd
        rw [hstop]
        refine ⟨h1, h2, le_rfl, by simp, ?_, Or.inr hNle⟩
        simp
      · have hdf : st.destroyed = false := by simpa using hd
        have hls : listStep N st c =
            ListAccum.mk (st.chunksAcc ++ [c]) (st.totalLength + c.length)
              (decide (N ≤ st.totalLength + c.length)) := by
          simp [listStep, hdf]
        have r2 : (ListAccum.mk (st.chunksAcc ++ [c]) (st.totalLength + c.length)
            (decide (N ≤ st.totalLength + c.length))).totalLength
            = (ListAccum.mk (st.chunksAcc ++ [c]) (st.totalLength + c.length)
                (decide (N ≤ st.totalLength + c.length))).chunksAcc.flatten.length := by
          simp only [List.flatten_append, List.flatten_cons, List.flatten_nil,
            List.append_nil, List.length_append]
          omega
        obtain ⟨i1, i2, i3, i4, i5, i6⟩ := ih _ rfl r2
        have hacc : accumGo N st (c :: cs) =
            accumGo N (ListAccum.mk (st.chunksAcc ++ [c]) (st.totalLength + c.length)
              (decide (N ≤ st.totalLength + c.length))) cs := by
          rw [accumGo, hls]
        rw [hacc]
        simp only at i3 i4 i5 i6
        have hflat1 : (st.chunksAcc ++ [c]).flatten = st.chunksAcc.flatten ++ c := by
          simp [List.flatten_append]
        rw [hflat1] at i4
        have hlen : (c :: cs).flatten.length = c.length + cs.flatten.length := by
          simp [List.flatten_cons]
        refine ⟨i1, i2, by omega, ?_, by omega, ?_⟩
        · rw [i4, List.flatten_cons, List.append_assoc]
          congr 2
          have hd2 : (accumGo N (ListAccum.mk (st.chunksAcc ++ [c])
              (st.totalLength + c.length)
              (decide (N ≤ st.totalLength + c.length))) cs).totalLength
              - st.totalLength
              = c.length + ((accumGo N (ListAccum.mk (st.chunksAcc ++ [c])
                  (st.totalLength + c.length)
                  (decide (N ≤ st.totalLength + c.length))) cs).totalLength
                - (st.totalLength + c.length)) := by omega
          rw [hd2, List.take_append]
        · rcases i6 with h | h
          · exact Or.inl (by omega)
          · exact Or.inr h

theorem accumulatePreview_spec (N : Nat) (hN : 0 < N) (chunks : List (List Nat)) :
    (accumulatePreview N chunks).totalLength
      = (accumulatePreview N chunks).chunksAcc.flatten.length ∧
    (accumulatePreview N chunks).chunksAcc.flatten
      = chunks.flatten.take (accumulatePreview N chunks).totalLength ∧
    (accumulatePreview N chunks).totalLength ≤ chunks.flatten.length ∧
    ((accumulatePreview N chunks).totalLength = chunks.flatten.length
      ∨ N ≤ (accumulatePreview N chunks).totalLength) := by
  have h0 : (ListAccum.mk [] 0 false).destroyed
      = decide (N ≤ (ListAccum.mk [] 0 false).totalLength) := by
    show false = decide (N ≤ 0)
    exact (decide_eq_false (by omega)).symm
  obtain ⟨a1, a2, a3, a4, a5, a6⟩ := accumGo_spec N chunks (ListAccum.mk [] 0 false) h0 rfl
  have hb : accumulatePreview N chunks = accumGo N (ListAccum.mk [] 0 false) chunks := rfl
  rw [hb]
  refine ⟨a2, by simpa using a4, by simpa using a5, ?_⟩
  rcases a6 with h | h
  · exact Or.inl (by simpa using h)
  · exact Or.inr h


/-- Claim C4 counterexample: A decompressed payload of `M = 2` bytes
delivered as two 1-byte chunks with `previewLength = N = 1`: the first
chunk makes `totalLength` reach exactly `N`, both streams are destroyed,
and the remaining byte never arrives — so `isTruncated` is computed as
`1 > 1 = false` although `M > N`; the claim requires `isTruncated =
true`.  The preview still holds exactly `N = 1` byte. -/
theorem C4_truncation_flag_miss :
    dataLookup (GzipHandler.listContents
        (GzipCodec.mk (fun _ c => c) (fun _ => .ok [[7], [8]]))
        [("a.gz", .file [0])] "a.gz" 1).2 "isTruncated"
      = some (.bool false) ∧
    dataLookup (GzipHandler.listContents
        (GzipCodec.mk (fun _ c => c) (fun _ => .ok [[7], [8]]))
        [("a.gz", .file [0])] "a.gz" 1).2 "preview"
      = some (.bytes [7]) ∧
    ([[7], [8]] : List (List Nat)).flatten.length = 2 ∧ (1 : Nat) < 2 ∧
    dataLookup (GzipHandler.listContents
        (GzipCodec.mk (fun _ c => c) (fun _ => .ok [[7], [8]]))
        [("a.gz", .file [0])] "a.gz" 1).2 "isTruncated"
      ≠ some (.bool true) := by
  exact ⟨by decide, by decide, by decide, by decide, by decide⟩

/-- Claim C4 (amended): For a list operation with `previewLength = N > 0`
on a payload of `M` bytes delivered as `chunks`: the preview always
holds exactly the first `min N M` bytes of the payload (so exactly `N`
bytes when `M > N`, all `M` bytes when `M ≤ N`); `isTruncated` is
computed as `totalRead > N` where `totalRead` is the byte count
accumulated before the early stop — `false` whenever `M ≤ N`, but when
`M > N` it is `true` only if the chunk that reached the cap overshot
`N`; when a chunk boundary lands exactly on `N` with more data
remaining, the result is not marked truncated. -/
theorem C4_preview_truncation (codec : GzipCodec) (fs : FileSystem)
    (sourcePath : String) (content : List Nat) (chunks : List (List Nat)) (N : Nat)
    (hfile : List.lookup sourcePath fs = some (.file content))
    (hvalid : GzipHandler.isFormatValid sourcePath = true)
    (hchunks : codec.gunzipChunks content = .ok chunks)
    (hN : 0 < N) :
    (GzipHandler.listContents codec fs sourcePath N).2.isError = false ∧
    dataLookup (GzipHandler.listContents codec fs sourcePath N).2 "preview"
      = some (.bytes (chunks.flatten.take (min N chunks.flatten.length))) ∧
    dataLookup (GzipHandler.listContents codec fs sourcePath N).2 "isTruncated"
      = some (.bool (decide (N < (accumulatePreview N chunks).totalLength))) ∧
    (chunks.flatten.length ≤ N →
      dataLookup (GzipHandler.listContents codec fs sourcePath N).2 "preview"
        = some (.bytes chunks.flatten) ∧
      dataLookup (GzipHandler.listContents codec fs sourcePath N).2 "isTruncated"
        = some (.bool false)) ∧
    (N < chunks.flatten.length →
      (chunks.flatten.take (min N chunks.flatten.length)).length = N) := by
  obtain ⟨a1, a2, a3, a4⟩ := accumulatePreview_spec N hN chunks
  have hex : fileExists fs sourcePath = true := by
    unfold fileExists
    rw [hfile]
    rfl
  have hif : isFile fs sourcePath = true := by unfold isFile; rw [hfile]
  have hsz : getFileSize fs sourcePath = .ok content.length := by
    unfold getFileSize
    rw [hfile]
  have hfc : fileContent fs sourcePath = content := by unfold fileContent; rw [hfile]
  have hNz : (if N = 0 then 1000 else N) = N := by
    rw [if_neg (by omega)]
  have hmin : min N (accumulatePreview N chunks).totalLength
      = min N chunks.flatten.length := by
    rcases a4 with h | h
    · rw [h]
    · rw [Nat.min_eq_left h, Nat.min_eq_left (le_trans h a3)]
  have hbuf : (accumulatePreview N chunks).chunksAcc.flatten.take
      (min N (accumulatePreview N chunks).totalLength)
      = chunks.flatten.take (min N chunks.flatten.length) := by
    rw [a2, List.take_take, hmin, ← hmin]
    congr 1
    exact Nat.min_eq_left (Nat.min_le_right _ _)
  have hrun : GzipHandler.listContents codec fs sourcePath N
      = (fs, createSuccessResult ("Content preview of " ++ sourcePath)
          [("fileName", .str (removeExtension (basename sourcePath) ".gz")),
           ("compressedSize", .nat content.length),
           ("previewSize", .nat (accumulatePreview N chunks).totalLength),
           ("preview", .bytes (chunks.flatten.take (min N chunks.flatten.length))),
           ("isTruncated", .bool (decide
             (N < (accumulatePreview N chunks).totalLength)))]) := by
    unfold GzipHandler.listContents
    rw [hex, hif, hvalid, hsz, hfc, hchunks]
    simp [hNz, hbuf]
  rw [hrun]
  refine ⟨rfl, by simp [dataLookup, createSuccessResult, List.lookup], ?_, ?_, ?_⟩
  · simp [dataLookup, createSuccessResult, List.lookup]
  · intro hMN
    have hle : (accumulatePreview N chunks).totalLength ≤ N := le_trans a3 hMN
    have htf : decide (N < (accumulatePreview N chunks).totalLength) = false :=
      decide_eq_false (by omega)
    have hpv : chunks.flatten.take (min N chunks.flatten.length) = chunks.flatten := by
      rw [Nat.min_eq_right hMN, List.take_length]
    rw [htf, hpv]
    exact ⟨by simp [dataLookup, createSuccessResult, List.lookup],
           by simp [dataLookup, createSuccessResult, List.lookup]⟩
  · intro hNM
    rw [List.length_take, Nat.min_eq_left (by omega : N ≤ chunks.flatten.length)]
    omega

/-- Witness for C4 (amended): a 50-byte payload delivered in one chunk
with `previewLength = 10` — the preview is the first 10 bytes and the
flag is truncated. -/
theorem C4_preview_truncation_witness :
    (List.lookup "a.gz" ([("a.gz", FSEntry.file [0])] : FileSystem)
      = some (.file [0])) ∧
    GzipHandler.isFormatValid "a.gz" = true ∧ (0 : Nat) < 10 ∧
    ((GzipHandler.listContents
        (GzipCodec.mk (fun _ c => c) (fun _ => .ok [List.replicate 50 3]))
        [("a.gz", .file [0])] "a.gz" 10).2.isError = false ∧
      dataLookup (GzipHandler.listContents
          (GzipCodec.mk (fun _ c => c) (fun _ => .ok [List.replicate 50 3]))
          [("a.gz", .file [0])] "a.gz" 10).2 "preview"
        = some (.bytes (([List.replicate 50 3] : List (List Nat)).flatten.take
            (min 10 ([List.replicate 50 3] : List (List Nat)).flatten.length)))) := by
  refine ⟨rfl, by decide, by decide, ?_, ?_⟩
  · exact (C4_preview_truncation
      (GzipCodec.mk (fun _ c => c) (fun _ => .ok [List.replicate 50 3]))
      [("a.gz", .file [0])] "a.gz" [0] [List.replicate 50 3] 10
      rfl (by decide) rfl (by decide)).1
  · exact ((C4_preview_truncation
      (GzipCodec.mk (fun _ c => c) (fun _ => .ok [List.replicate 50 3]))
      [("a.gz", .file [0])] "a.gz" [0] [List.replicate 50 3] 10
      rfl (by decide) rfl (by decide)).2).1

end CompressServer

